import Mathlib

/-!
Verification of the elastic-search infrastructure layer of python-databases.

The Python sources are shallowly embedded: dict-shaped records become
association lists preserving insertion order, Python values become the
inductive PyVal, fallible code returns Except, and the network side effects
of the bulk loader become an explicit event trace.
-/

set_option autoImplicit false

namespace PyDB

/-- Model of the Python values this layer manipulates: None, strings,
integers and lists (record column values, envelope entries). -/
inductive PyVal where
  | vNone
  | vStr (s : String)
  | vNat (n : Nat)
  | vList (elems : List PyVal)

/-- Python check used by the source at line 142: type(item) is str. -/
def PyVal.isStr : PyVal → Bool
  | .vStr _ => true
  | _ => false

/-- Python check item is None. -/
def PyVal.isNone : PyVal → Bool
  | .vNone => true
  | _ => false

/-- Extract the string of a vStr (used only under an all-isStr guard). -/
def PyVal.strOf : PyVal → String
  | .vStr s => s
  | _ => ""

/-- Python ", ".join on a list of strings (elastic_search.py line 145). -/
def joinComma : List String → String
  | [] => ""
  | [s] => s
  | s :: rest => s ++ ", " ++ joinComma rest

/-- A Python dict as an insertion-ordered association list. -/
abbrev Dict := List (String × PyVal)

/-- Membership test on dict keys. -/
def dictHasKey (d : Dict) (k : String) : Bool :=
  match d with
  | [] => false
  | p :: rest => p.1 == k || dictHasKey rest k

/-- Python dict assignment d[k] = v: update the entry in place, keeping its
position, when the key exists; append at the end otherwise. -/
def dictSet (d : Dict) (k : String) (v : PyVal) : Dict :=
  match d with
  | [] => [(k, v)]
  | p :: rest => if p.1 == k then (k, v) :: rest else p :: dictSet rest k v

/-- Python dict lookup d[k] as an Option. -/
def dictGet (d : Dict) (k : String) : Option PyVal :=
  match d with
  | [] => none
  | p :: rest => if p.1 == k then some p.2 else dictGet rest k

/-- Python truthiness of an Optional[str]: None and the empty string are
falsy (guard at elastic_search.py line 138: if username). -/
def pyTruthyStr : Option String → Bool
  | none => false
  | some s => s != ""

/-- The date_str derivation at elastic_search.py line 134:
str(date_and_time).replace(dash, underscore), a per-character replacement. -/
def replaceDashUnderscore (s : String) : String :=
  String.mk (s.data.map (fun c => if c = '-' then '_' else c))

/-- ElasticSearch.add_basic_info (elastic_search.py lines 129-139): update the
working document with doc_id, timestamp and date_str, then username when the
username argument is truthy. -/
def add_basic_info (doc : Dict) (doc_id : String) (timestamp : PyVal)
    (date_and_time : String) (username : Option String) : Dict :=
  let doc := dictSet doc "doc_id" (.vStr doc_id)
  let doc := dictSet doc "timestamp" timestamp
  let doc := dictSet doc "date_str" (.vStr (replaceDashUnderscore date_and_time))
  match username with
  | none => doc
  | some s => if s = "" then doc else dictSet doc "username" (.vStr s)

/-- ElasticSearch.add_list_values_as_str (elastic_search.py lines 141-145):
when the value is a list whose items are all of type str, drop None items,
store the filtered list under the column and the comma-join under
column + "_str"; otherwise leave the document unchanged. -/
def add_list_values_as_str (doc : Dict) (value : PyVal) (column : String) : Dict :=
  match value with
  | .vList l =>
    if l.all PyVal.isStr then
      let fl := l.filter (fun item => !item.isNone)
      dictSet (dictSet doc column (.vList fl))
        (column ++ "_str") (.vStr (joinComma (fl.map PyVal.strOf)))
    else doc
  | _ => doc

/-- One iteration of the per-column loop in fill_elk_index_as_bulk
(elastic_search.py lines 123-125): copy the column value into the document,
then run add_list_values_as_str on it. -/
def apply_row_field (doc : Dict) (column : String) (value : PyVal) : Dict :=
  add_list_values_as_str (dictSet doc column value) value column

/-- The column loop of fill_elk_index_as_bulk over one record. -/
def processRow (doc : Dict) (row : Dict) : Dict :=
  row.foldl (fun d p => apply_row_field d p.1 p.2) doc

/-- The per-record body of fill_elk_index_as_bulk (lines 115-125): reset the
working document, add the basic info, then copy the record columns. -/
def buildDoc (doc_id : String) (timestamp : PyVal) (date_and_time : String)
    (username : Option String) (row : Dict) : Dict :=
  processRow (add_basic_info [] doc_id timestamp date_and_time username) row

/-- A Bulk Request Item: the source dicts at elastic_search.py lines 63-68
pair an index name with a deep copy of the document. -/
abbrev Item := String × Dict

/-- ElasticSearch.fill_list_of_docs (lines 57-68) at the level of values:
append the (index, document) pair to the queue. -/
def fill_list_of_docs (list_of_docs : List Item) (index_name : String)
    (doc : Dict) : List Item :=
  list_of_docs ++ [(index_name, doc)]

/-- Observable network-facing events of the chunked bulk loader: a chunk
submission (the set_list_of_docs call at line 97) or a time.sleep. -/
inductive BulkEvent where
  | submit (chunk : List Item)
  | sleep (seconds : Nat)

/-- Recognize a sleep event. -/
def BulkEvent.isSleep : BulkEvent → Bool
  | .sleep _ => true
  | _ => false

/-- Extract the chunk of a submit event. -/
def BulkEvent.chunkOf : BulkEvent → Option (List Item)
  | .submit c => some c
  | _ => none

/-- Python range(start, stop, step) for a positive step. -/
def pyRange (start stop step : Nat) : List Nat :=
  if _h : 0 < step ∧ start < stop then start :: pyRange (start + step) stop step
  else []
termination_by stop - start
decreasing_by omega

/-- Python slice l[a:b] for a ≤ b. -/
def pySlice {α : Type} (l : List α) (a b : Nat) : List α :=
  (l.drop a).take (b - a)

/-- ElasticSearch.fill_elk_index_as_bulk_chunk (elastic_search.py lines
93-98) as its event trace: one submission per loop iteration over
range(0, len(list_of_docs), chunk_size), and the single time.sleep that the
source performs after the loop ends. -/
def fill_elk_index_as_bulk_chunk (list_of_docs : List Item)
    (chunk_size : Nat) (time_sleep : Nat) : List BulkEvent :=
  ((pyRange 0 list_of_docs.length chunk_size).map
    (fun i => BulkEvent.submit (pySlice list_of_docs i (i + chunk_size))))
    ++ [BulkEvent.sleep time_sleep]

/-- The chunks actually submitted in a trace, in order. -/
def submittedChunks (tr : List BulkEvent) : List (List Item) :=
  tr.filterMap BulkEvent.chunkOf

/-- ElasticSearch.fill_elk_index_as_bulk (elastic_search.py lines 100-127):
build one envelope per record and queue it under doc_index_name, then hand
the queue to fill_elk_index_as_bulk_chunk. Returns the queue and the trace. -/
def fill_elk_index_as_bulk (data : List Dict) (doc_id : String)
    (doc_index_name : String) (timestamp : PyVal) (date_and_time : String)
    (username : Option String) (chunk_size : Nat) (time_sleep : Nat) :
    List Item × List BulkEvent :=
  let list_of_docs := data.foldl
    (fun acc row =>
      fill_list_of_docs acc doc_index_name
        (buildDoc doc_id timestamp date_and_time username row)) []
  (list_of_docs, fill_elk_index_as_bulk_chunk list_of_docs chunk_size time_sleep)

/-- Recursive take/drop characterization of the slices produced by the
range-based loop; used only inside proofs. -/
def chunksRec {α : Type} (l : List α) (k : Nat) : List (List α) :=
  if _h : 0 < k ∧ 0 < l.length then l.take k :: chunksRec (l.drop k) k
  else []
termination_by l.length
decreasing_by
  simp only [List.length_drop]
  omega

/-- Severity of a log record emitted by the loader. -/
inductive LogLevel where
  | info
  | debug
  | error
deriving DecidableEq

/-- A log record: severity and message. -/
abbrev LogMsg := LogLevel × String

/-- Result of one item of the streaming bulk response: the HTTP status of
the index action and its shard-failure count (the fields read at
elastic_search.py line 82). -/
abbrev StreamItem := Nat × Nat

/-- ElasticSearch.set_list_of_docs (elastic_search.py lines 70-91). The
responses of the two helpers calls are inputs: streaming_response is the
item sequence produced by helpers.streaming_bulk, bulk_response the
(success count, failed items) pair returned by helpers.bulk. The function
returns the emitted log records inside Except, whose error case would model
an exception propagating to the caller; the source has no raise on either
path, so every branch ends in Except.ok. -/
def set_list_of_docs (list_of_docs : List Item) (request_timeout : Nat)
    (quick : Bool) (streaming_response : List StreamItem)
    (bulk_response : Nat × List String) : Except String (List LogMsg) :=
  let _ := request_timeout
  let start : List LogMsg := [(.info, "Start to report the documents to ELK")]
  if quick then
    let failed := streaming_response.filter
      (fun item => item.1 != 201 || item.2 > 0)
    let logs := start ++ failed.map
      (fun item => ((.debug : LogLevel), "Failed document: " ++ toString item.1))
    Except.ok (logs ++ [(.info, "Finish to report the documents to ELK")])
  else
    let success_response := bulk_response.1
    let logs := start ++
      (if success_response = list_of_docs.length then
        [((.info : LogLevel), "All documents were reported successfully")]
      else
        [((.error : LogLevel),
          "Not all documents were reported successfully.")])
    Except.ok (logs ++ [(.info, "Finish to report the documents to ELK")])

/-- ElasticSearch.check_if_index_exists (elastic_search.py lines 155-161):
membership of the index name in the cluster state. -/
def check_if_index_exists (indices : List String) (index : String) : Bool :=
  if indices.contains index then true else false

/-- ElasticSearch.delete_index (lines 163-165): the client deletion call,
returning the new cluster state and the issued deletion as a trace. -/
def delete_index (indices : List String) (index : String) :
    List String × List String :=
  (indices.filter (fun i => i != index), [index])

/-- ElasticSearch.check_if_index_exists_and_delete_if_exists (lines
167-173): result flag, new cluster state, and the trace of deletion calls
issued. -/
def check_if_index_exists_and_delete_if_exists (indices : List String)
    (index : String) : Bool × List String × List String :=
  if check_if_index_exists indices index then
    let r := delete_index indices index
    (true, r.1, r.2)
  else
    (false, indices, [])

end PyDB

namespace PyDB.HeapModel

/-! Heap-based model of fill_list_of_docs, needed to express deep-copy
isolation: Python dicts are mutable objects behind references, so the
working document is an address into a heap, copy.deepcopy allocates a fresh
address holding the current content, and mutation writes through the
original address. -/

/-- A reference to a dict object. -/
abbrev Addr := Nat

/-- The object heap: next fresh address and the content at each address. -/
structure Heap where
  next : Addr
  store : Addr → Dict

/-- Allocate a fresh object holding content d. -/
def Heap.alloc (h : Heap) (d : Dict) : Heap × Addr :=
  (⟨h.next + 1, fun x => if x = h.next then d else h.store x⟩, h.next)

/-- Overwrite the object at address a. -/
def Heap.write (h : Heap) (a : Addr) (d : Dict) : Heap :=
  ⟨h.next, fun x => if x = a then d else h.store x⟩

/-- copy.deepcopy at elastic_search.py line 66: a fresh object with the
same content, sharing no structure with the original. -/
def deepcopy (h : Heap) (a : Addr) : Heap × Addr :=
  h.alloc (h.store a)

/-- A queued Bulk Request Item: target index and the address of the copied
source document. -/
structure BulkItem where
  index : String
  source : Addr

/-- ElasticSearch.fill_list_of_docs (lines 57-68) on the heap: append an
item holding a deep copy of the working document. -/
def fill_list_of_docs (h : Heap) (list_of_docs : List BulkItem)
    (index_name : String) (doc : Addr) : Heap × List BulkItem :=
  let r := deepcopy h doc
  (r.1, list_of_docs ++ [⟨index_name, r.2⟩])

/-- One in-place mutation of the dict at address a (for example a Python
item assignment on self.doc). -/
def mutateDoc (h : Heap) (a : Addr) (f : Dict → Dict) : Heap :=
  h.write a (f (h.store a))

/-- A sequence of in-place mutations of the dict at address a. -/
def applyMutations (h : Heap) (a : Addr) (fs : List (Dict → Dict)) : Heap :=
  fs.foldl (fun h f => mutateDoc h a f) h

end PyDB.HeapModel

namespace PyDB.Conn

/-! Model of the two connection factories and of the retrying decorator
with stop_max_attempt_number=3 and wait_fixed=180000 (milliseconds). -/

/-- The connection handle, reduced to its observable liveness check. -/
structure ElkClient where
  ping : Bool

/-- Outcome of one underlying connection attempt: either the client library
itself raised while connecting, or a client was produced and its ping
returned the given answer. -/
inductive ConnectOutcome where
  | raised (msg : String)
  | connected (pingOk : Bool)

/-- One attempt of ElasticSearchOnPrem.connect_to_elasticsearch
(elastic_search.py lines 199-216): build the client, ping it, and raise the
generic exception naming elasticsearch_url when the ping fails. -/
def connect_once_onprem (elasticsearch_url : String)
    (outcome : ConnectOutcome) : Except String ElkClient :=
  match outcome with
  | .raised msg => .error msg
  | .connected pingOk =>
    if pingOk then .ok ⟨true⟩
    else .error ("Failed to connect to Elasticsearch on-prem on "
      ++ elasticsearch_url)

/-- One attempt of ElasticSearchCloud.connect_to_elasticsearch
(elastic_search.py lines 242-251): the exception names elk_hostname, the
cloud identifier. -/
def connect_once_cloud (elk_hostname : String)
    (outcome : ConnectOutcome) : Except String ElkClient :=
  match outcome with
  | .raised msg => .error msg
  | .connected pingOk =>
    if pingOk then .ok ⟨true⟩
    else .error ("Failed to connect to Elasticsearch cloud on "
      ++ elk_hostname)

/-- The retrying decorator with a fixed wait: run the action with at most
the given number of attempts, sleeping wait milliseconds before each retry;
the last failure propagates. Returns the result, the number of attempts
made, and the list of waits performed. -/
def retryFixed (wait : Nat) (action : Nat → Except String ElkClient) :
    Nat → Nat → Except String ElkClient × Nat × List Nat
  | 0, _ => (.error "no attempts", 0, [])
  | 1, i => (action i, 1, [])
  | n + 2, i =>
    match action i with
    | .ok c => (.ok c, 1, [])
    | .error _ =>
      let r := retryFixed wait action (n + 1) (i + 1)
      (r.1, r.2.1 + 1, wait :: r.2.2)

/-- The decorated on-prem factory: retry(stop_max_attempt_number=3,
wait_fixed=180000) applied to one on-prem attempt, the outcome of attempt
number i being env i. -/
def connect_to_elasticsearch_onprem (elasticsearch_url : String)
    (env : Nat → ConnectOutcome) : Except String ElkClient × Nat × List Nat :=
  retryFixed 180000 (fun i => connect_once_onprem elasticsearch_url (env i)) 3 0

/-- The decorated cloud factory. -/
def connect_to_elasticsearch_cloud (elk_hostname : String)
    (env : Nat → ConnectOutcome) : Except String ElkClient × Nat × List Nat :=
  retryFixed 180000 (fun i => connect_once_cloud elk_hostname (env i)) 3 0

/-- The URL protocol enumeration of elastic_search.py lines 14-16. -/
inductive UrlProtocol where
  | http
  | https

/-- The value attribute of the enumeration members. -/
def UrlProtocol.val : UrlProtocol → String
  | .http => "http"
  | .https => "https"

/-- Python truthiness of an Optional[int] port: None and 0 are falsy. -/
def pyTruthyPort : Option Nat → Bool
  | none => false
  | some n => n != 0

/-- Python str() of an Optional[int] as an f-string renders it: None
becomes the text None. -/
def pyShowOptNat : Option Nat → String
  | none => "None"
  | some n => toString n

/-- elasticsearch_url as computed by ElasticSearch.__init__ in
elastic_search.py lines 37-41: protocol://host without a port when the port
is falsy, protocol://host:port otherwise. -/
def elasticsearch_url_main (protocol : UrlProtocol) (elk_hostname : String)
    (elasticsearch_port : Option Nat) : String :=
  if !pyTruthyPort elasticsearch_port then
    protocol.val ++ "://" ++ elk_hostname
  else
    protocol.val ++ "://" ++ elk_hostname ++ ":"
      ++ pyShowOptNat elasticsearch_port

/-- elasticsearch_url as computed by ElasticSearchConnection.__init__ in
elastic_serach_connection.py lines 33-37, where the branch condition is the
opposite one (if self.elasticsearch_port: takes the port-less format). In
that file UrlProtocol subclasses str, so the protocol is a plain string. -/
def elasticsearch_url_conn (protocol : String) (elk_hostname : String)
    (elasticsearch_port : Option Nat) : String :=
  if pyTruthyPort elasticsearch_port then
    protocol ++ "://" ++ elk_hostname
  else
    protocol ++ "://" ++ elk_hostname ++ ":"
      ++ pyShowOptNat elasticsearch_port

end PyDB.Conn

namespace PyDB

/-! String facts about the derived column + "_str" key names. -/

theorem append_str_ne_self (s : String) : s ++ "_str" ≠ s := by
  intro h
  have hl := congrArg String.length h
  rw [String.length_append] at hl
  have h4 : ("_str" : String).length = 4 := rfl
  omega

theorem append_str_inj {s t : String} (h : s ++ "_str" = t ++ "_str") :
    s = t := by
  have hd : s.data ++ "_str".data = t.data ++ "_str".data := by
    rw [← String.data_append, ← String.data_append, h]
  exact String.ext (List.append_inj' hd rfl).1

theorem append_str_ne_username (s : String) : s ++ "_str" ≠ "username" := by
  intro h
  have hd : s.data ++ "_str".data = "user".data ++ "name".data := by
    rw [← String.data_append, h]
    decide
  have h2 := (List.append_inj' hd rfl).2
  exact absurd h2 (by decide)

theorem append_str_eq_date_str {s : String} (h : s ++ "_str" = "date_str") :
    s = "date" := by
  have h2 : s ++ "_str" = "date" ++ "_str" := by
    rw [h]
    decide
  exact append_str_inj h2

theorem append_str_ne_doc_id (s : String) : s ++ "_str" ≠ "doc_id" := by
  intro h
  have hd : s.data ++ "_str".data = "do".data ++ "c_id".data := by
    rw [← String.data_append, h]
    decide
  have h2 := (List.append_inj' hd rfl).2
  exact absurd h2 (by decide)

theorem append_str_ne_timestamp (s : String) : s ++ "_str" ≠ "timestamp" := by
  intro h
  have hd : s.data ++ "_str".data = "times".data ++ "tamp".data := by
    rw [← String.data_append, h]
    decide
  have h2 := (List.append_inj' hd rfl).2
  exact absurd h2 (by decide)

/-! Association-list lemmas for the dict model. -/

theorem dictGet_eq_none_of_hasKey_eq_false {d : Dict} {k : String}
    (h : dictHasKey d k = false) : dictGet d k = none := by
  induction d with
  | nil => rfl
  | cons p rest ih =>
    simp only [dictHasKey, Bool.or_eq_false_iff] at h
    simp only [dictGet, h.1, Bool.false_eq_true, if_false]
    exact ih h.2

theorem dictGet_dictSet_self (d : Dict) (k : String) (v : PyVal) :
    dictGet (dictSet d k v) k = some v := by
  induction d with
  | nil => simp [dictSet, dictGet]
  | cons p rest ih =>
    by_cases hp : (p.1 == k) = true
    · simp [dictSet, hp, dictGet]
    · rw [Bool.not_eq_true] at hp
      simp only [dictSet, hp, Bool.false_eq_true, if_false, dictGet]
      exact ih

theorem dictGet_dictSet_ne (d : Dict) (k : String) (v : PyVal) {k' : String}
    (hne : k' ≠ k) : dictGet (dictSet d k v) k' = dictGet d k' := by
  have hkk : (k == k') = false := by
    simp only [beq_eq_false_iff_ne]
    exact fun h => hne h.symm
  induction d with
  | nil =>
    simp only [dictSet, dictGet, hkk, Bool.false_eq_true, if_false]
  | cons p rest ih =>
    by_cases hp : (p.1 == k) = true
    · have hpk' : (p.1 == k') = false := by
        rw [eq_of_beq hp]
        exact hkk
      simp only [dictSet, hp, if_true, dictGet, hkk, hpk',
        Bool.false_eq_true, if_false]
    · rw [Bool.not_eq_true] at hp
      simp only [dictSet, hp, Bool.false_eq_true, if_false, dictGet]
      by_cases hp' : (p.1 == k') = true
      · simp only [hp', if_true]
      · rw [Bool.not_eq_true] at hp'
        simp only [hp', Bool.false_eq_true, if_false]
        exact ih

/-- dictSet preserves the key set except for adding its own key. -/
theorem dictHasKey_dictSet (d : Dict) (k : String) (v : PyVal) (k' : String) :
    dictHasKey (dictSet d k v) k' = true ↔
      (dictHasKey d k' = true ∨ k' = k) := by
  induction d with
  | nil =>
    simp only [dictSet, dictHasKey, Bool.or_false, beq_iff_eq,
      Bool.false_eq_true, false_or]
    exact eq_comm
  | cons p rest ih =>
    by_cases hp : (p.1 == k) = true
    · have hpk : p.1 = k := eq_of_beq hp
      simp only [dictSet, hp, if_true, dictHasKey, Bool.or_eq_true,
        beq_iff_eq, hpk]
      constructor
      · exact Or.inl
      · rintro (h | h)
        · exact h
        · exact Or.inl h.symm
    · rw [Bool.not_eq_true] at hp
      simp only [dictSet, hp, Bool.false_eq_true, if_false, dictHasKey,
        Bool.or_eq_true, ih]
      exact or_assoc.symm

/-! Lemmas about the per-column step of the loader. -/

/-- Under the all-items-are-str guard, the None filter of
add_list_values_as_str removes nothing: no string item is None. -/
theorem filter_not_isNone_of_all_isStr {l : List PyVal}
    (h : l.all PyVal.isStr = true) :
    l.filter (fun item => !item.isNone) = l := by
  induction l with
  | nil => rfl
  | cons x xs ih =>
    simp only [List.all_cons, Bool.and_eq_true] at h
    have hx : (!x.isNone) = true := by
      cases x <;> simp_all [PyVal.isStr, PyVal.isNone]
    simp only [List.filter_cons, hx, if_true]
    rw [ih h.2]

/-- The two shapes that one per-column step can take: either the value is
not an all-str list and only the plain copy happens, or it is and the two
extra writes happen, with the filter being the identity. -/
theorem apply_row_field_eq (d : Dict) (c : String) (v : PyVal) :
    apply_row_field d c v = dictSet d c v ∨
    ∃ l, v = PyVal.vList l ∧ l.all PyVal.isStr = true ∧
      apply_row_field d c v =
        dictSet (dictSet (dictSet d c v) c v)
          (c ++ "_str") (.vStr (joinComma (l.map PyVal.strOf))) := by
  cases v with
  | vList l =>
    by_cases hall : l.all PyVal.isStr = true
    · refine Or.inr ⟨l, rfl, hall, ?hh⟩
      unfold apply_row_field add_list_values_as_str
      simp only [hall, if_true, filter_not_isNone_of_all_isStr hall]
    · left
      unfold apply_row_field add_list_values_as_str
      rw [Bool.not_eq_true] at hall
      simp only [hall, Bool.false_eq_true, if_false]
  | vNone => exact Or.inl rfl
  | vStr s => exact Or.inl rfl
  | vNat n => exact Or.inl rfl

theorem dictGet_apply_row_field_self (d : Dict) (c : String) (v : PyVal) :
    dictGet (apply_row_field d c v) c = some v := by
  rcases apply_row_field_eq d c v with h | ⟨l, hv, hall, h⟩
  · rw [h]
    exact dictGet_dictSet_self d c v
  · rw [h]
    rw [dictGet_dictSet_ne _ _ _ (fun hh => append_str_ne_self c hh.symm)]
    exact dictGet_dictSet_self _ c v

theorem dictGet_apply_row_field_ne (d : Dict) (c : String) (v : PyVal)
    {k : String} (hc : k ≠ c) (hcs : k ≠ c ++ "_str") :
    dictGet (apply_row_field d c v) k = dictGet d k := by
  rcases apply_row_field_eq d c v with h | ⟨l, hv, hall, h⟩
  · rw [h]
    exact dictGet_dictSet_ne d c v hc
  · rw [h, dictGet_dictSet_ne _ _ _ hcs, dictGet_dictSet_ne _ _ _ hc,
      dictGet_dictSet_ne _ _ _ hc]

theorem hasKey_apply_row_field (d : Dict) (c : String) (v : PyVal)
    {k : String} (h : dictHasKey (apply_row_field d c v) k = true) :
    dictHasKey d k = true ∨ k = c ∨ k = c ++ "_str" := by
  rcases apply_row_field_eq d c v with he | ⟨l, hv, hall, he⟩
  · rw [he] at h
    rcases (dictHasKey_dictSet d c v k).mp h with h | h
    · exact Or.inl h
    · exact Or.inr (Or.inl h)
  · rw [he] at h
    rcases (dictHasKey_dictSet _ _ _ k).mp h with h | h
    · rcases (dictHasKey_dictSet _ _ _ k).mp h with h | h
      · rcases (dictHasKey_dictSet _ _ _ k).mp h with h | h
        · exact Or.inl h
        · exact Or.inr (Or.inl h)
      · exact Or.inr (Or.inl h)
    · exact Or.inr (Or.inr h)

theorem hasKey_apply_row_field_of (d : Dict) (c : String) (v : PyVal)
    {k : String} (h : dictHasKey d k = true ∨ k = c) :
    dictHasKey (apply_row_field d c v) k = true := by
  rcases apply_row_field_eq d c v with he | ⟨l, hv, hall, he⟩
  · rw [he]
    exact (dictHasKey_dictSet d c v k).mpr h
  · rw [he]
    refine (dictHasKey_dictSet _ _ _ k).mpr (Or.inl ?h1)
    refine (dictHasKey_dictSet _ _ _ k).mpr (Or.inl ?h2)
    exact (dictHasKey_dictSet _ _ _ k).mpr h

/-! Lemmas about the whole column loop. -/

theorem processRow_nil (doc : Dict) : processRow doc [] = doc := rfl

theorem processRow_cons (doc : Dict) (p : String × PyVal) (row : Dict) :
    processRow doc (p :: row) = processRow (apply_row_field doc p.1 p.2) row
    := rfl

theorem processRow_append (doc : Dict) (r1 r2 : Dict) :
    processRow doc (r1 ++ r2) = processRow (processRow doc r1) r2 := by
  unfold processRow
  exact List.foldl_append _ _ r1 r2

theorem hasKey_processRow_of_hasKey {doc : Dict} {k : String} (row : Dict)
    (h : dictHasKey doc k = true) :
    dictHasKey (processRow doc row) k = true := by
  induction row generalizing doc with
  | nil => exact h
  | cons p row ih =>
    rw [processRow_cons]
    exact ih (hasKey_apply_row_field_of doc p.1 p.2 (Or.inl h))

theorem hasKey_processRow {doc : Dict} {k : String} {row : Dict}
    (h : dictHasKey (processRow doc row) k = true) :
    dictHasKey doc k = true ∨ ∃ p ∈ row, k = p.1 ∨ k = p.1 ++ "_str" := by
  induction row generalizing doc with
  | nil => exact Or.inl h
  | cons p row ih =>
    rw [processRow_cons] at h
    rcases ih h with h | ⟨q, hq, hk⟩
    · rcases hasKey_apply_row_field doc p.1 p.2 h with h | h
      · exact Or.inl h
      · exact Or.inr ⟨p, List.mem_cons_self p row, h⟩
    · exact Or.inr ⟨q, List.mem_cons_of_mem p hq, hk⟩

theorem dictGet_processRow_untouched {doc : Dict} {k : String} {row : Dict}
    (h : ∀ p ∈ row, p.1 ≠ k ∧ p.1 ++ "_str" ≠ k) :
    dictGet (processRow doc row) k = dictGet doc k := by
  induction row generalizing doc with
  | nil => rfl
  | cons p row ih =>
    rw [processRow_cons]
    have hp := h p (List.mem_cons_self p row)
    rw [ih (fun q hq => h q (List.mem_cons_of_mem p hq))]
    exact dictGet_apply_row_field_ne doc p.1 p.2
      (fun hh => hp.1 hh.symm) (fun hh => hp.2 hh.symm)

theorem hasKey_processRow_of_mem {doc : Dict} {row : Dict}
    {p : String × PyVal} (h : p ∈ row) :
    dictHasKey (processRow doc row) p.1 = true := by
  rcases List.append_of_mem h with ⟨s, t, rfl⟩
  rw [processRow_append, processRow_cons]
  exact hasKey_processRow_of_hasKey t
    (hasKey_apply_row_field_of _ p.1 p.2 (Or.inr rfl))

/-- The record's value for a column survives to the end of the column loop
provided no later column has the same name and no later column derives the
same name through the "_str" suffix. -/
theorem dictGet_processRow_of_split (doc : Dict) (s t : Dict) (k : String)
    (v : PyVal) (ht : ∀ q ∈ t, q.1 ≠ k ∧ q.1 ++ "_str" ≠ k) :
    dictGet (processRow doc (s ++ (k, v) :: t)) k = some v := by
  rw [processRow_append, processRow_cons]
  rw [dictGet_processRow_untouched ht]
  exact dictGet_apply_row_field_self _ k v

/-! Shape of the basic info on a fresh working document. -/

theorem add_basic_info_nil_none (doc_id : String) (ts : PyVal)
    (date : String) :
    add_basic_info [] doc_id ts date none =
      [("doc_id", .vStr doc_id), ("timestamp", ts),
       ("date_str", .vStr (replaceDashUnderscore date))] := rfl

theorem add_basic_info_nil_empty (doc_id : String) (ts : PyVal)
    (date : String) :
    add_basic_info [] doc_id ts date (some "") =
      [("doc_id", .vStr doc_id), ("timestamp", ts),
       ("date_str", .vStr (replaceDashUnderscore date))] := rfl

theorem add_basic_info_nil_some (doc_id : String) (ts : PyVal)
    (date : String) {s : String} (hs : s ≠ "") :
    add_basic_info [] doc_id ts date (some s) =
      [("doc_id", .vStr doc_id), ("timestamp", ts),
       ("date_str", .vStr (replaceDashUnderscore date)),
       ("username", .vStr s)] := by
  have h1 : add_basic_info [] doc_id ts date (some s) =
      if s = "" then
        [("doc_id", .vStr doc_id), ("timestamp", ts),
         ("date_str", .vStr (replaceDashUnderscore date))]
      else
        [("doc_id", .vStr doc_id), ("timestamp", ts),
         ("date_str", .vStr (replaceDashUnderscore date)),
         ("username", .vStr s)] := rfl
  rw [h1, if_neg hs]

theorem hasKey_basic_doc_id (doc_id : String) (ts : PyVal) (date : String)
    (u : Option String) :
    dictHasKey (add_basic_info [] doc_id ts date u) "doc_id" = true := by
  rcases u with _ | s
  · rw [add_basic_info_nil_none]
    rfl
  · by_cases hs : s = ""
    · subst hs
      rw [add_basic_info_nil_empty]
      rfl
    · rw [add_basic_info_nil_some doc_id ts date hs]
      rfl

theorem hasKey_basic_timestamp (doc_id : String) (ts : PyVal) (date : String)
    (u : Option String) :
    dictHasKey (add_basic_info [] doc_id ts date u) "timestamp" = true := by
  rcases u with _ | s
  · rw [add_basic_info_nil_none]
    rfl
  · by_cases hs : s = ""
    · subst hs
      rw [add_basic_info_nil_empty]
      rfl
    · rw [add_basic_info_nil_some doc_id ts date hs]
      rfl

theorem hasKey_basic_date_str (doc_id : String) (ts : PyVal) (date : String)
    (u : Option String) :
    dictHasKey (add_basic_info [] doc_id ts date u) "date_str" = true := by
  rcases u with _ | s
  · rw [add_basic_info_nil_none]
    rfl
  · by_cases hs : s = ""
    · subst hs
      rw [add_basic_info_nil_empty]
      rfl
    · rw [add_basic_info_nil_some doc_id ts date hs]
      rfl

theorem dictGet_basic_date_str (doc_id : String) (ts : PyVal) (date : String)
    (u : Option String) :
    dictGet (add_basic_info [] doc_id ts date u) "date_str"
      = some (.vStr (replaceDashUnderscore date)) := by
  rcases u with _ | s
  · rw [add_basic_info_nil_none]
    rfl
  · by_cases hs : s = ""
    · subst hs
      rw [add_basic_info_nil_empty]
      rfl
    · rw [add_basic_info_nil_some doc_id ts date hs]
      rfl

theorem hasKey_basic_username (doc_id : String) (ts : PyVal) (date : String)
    (u : Option String) :
    dictHasKey (add_basic_info [] doc_id ts date u) "username"
      = pyTruthyStr u := by
  rcases u with _ | s
  · rw [add_basic_info_nil_none]
    rfl
  · by_cases hs : s = ""
    · subst hs
      rw [add_basic_info_nil_empty]
      rfl
    · rw [add_basic_info_nil_some doc_id ts date hs]
      have ht : pyTruthyStr (some s) = true := by
        simp only [pyTruthyStr, bne_iff_ne, ne_eq]
        exact hs
      rw [ht]
      rfl

/-! Chunking lemmas: the range-based loop of fill_elk_index_as_bulk_chunk
produces the take/drop chunk decomposition, whose shape is then computed. -/

theorem ceil_div_step (d k : Nat) (h : 0 < k) (hd : 0 < d) :
    (d - k + k - 1) / k + 1 = (d + k - 1) / k := by
  rcases le_or_lt k d with hle | hlt
  · have e2 : d - k + k - 1 = d - 1 := by omega
    have e3 : d + k - 1 = (d - 1) + k := by omega
    rw [e2, e3, Nat.add_div_right _ h]
  · have e2 : d - k = 0 := by omega
    have e3 : d + k - 1 = (d - 1) + k := by omega
    rw [e2, e3, Nat.add_div_right _ h]
    have e4 : 0 + k - 1 = k - 1 := by omega
    rw [e4, Nat.div_eq_of_lt (by omega), Nat.div_eq_of_lt (by omega)]

theorem chunksRec_ne_nil {α : Type} (l : List α) (k : Nat) (hk : 0 < k)
    (hl : 0 < l.length) : chunksRec l k ≠ [] := by
  rw [chunksRec, dif_pos ⟨hk, hl⟩]
  simp

theorem pyRange_map_slice {α : Type} (l : List α) :
    ∀ a stop k : Nat, stop = l.length → 0 < k →
      (pyRange a stop k).map (fun i => pySlice l i (i + k))
        = chunksRec (l.drop a) k := by
  intro a stop k
  induction a, stop, k using pyRange.induct with
  | case1 a stop k hlt ih =>
    rintro rfl hk
    have hdl : 0 < (l.drop a).length := by
      rw [List.length_drop]
      omega
    have e1 : pySlice l a (a + k) = (l.drop a).take k := by
      unfold pySlice
      rw [Nat.add_sub_cancel_left]
    have e2 : (l.drop a).drop k = l.drop (a + k) := by
      rw [List.drop_drop, Nat.add_comm]
    rw [pyRange, dif_pos hlt, List.map_cons, ih rfl hk]
    conv_rhs => rw [chunksRec]
    rw [dif_pos ⟨hk, hdl⟩, e1, e2]
  | case2 a stop k hge =>
    rintro rfl hk
    have hle : l.length ≤ a := by
      rcases Nat.lt_or_ge a l.length with hc | hc
      · exact absurd ⟨hk, hc⟩ hge
      · exact hc
    rw [pyRange, dif_neg hge, List.map_nil, chunksRec, dif_neg]
    rintro ⟨_, hdl⟩
    rw [List.length_drop] at hdl
    omega

theorem chunksRec_length {α : Type} (l : List α) (k : Nat) :
    0 < k → (chunksRec l k).length = (l.length + k - 1) / k := by
  induction l, k using chunksRec.induct with
  | case1 l k hlt ih =>
    intro hk
    rw [chunksRec, dif_pos hlt, List.length_cons, ih hk, List.length_drop]
    exact ceil_div_step l.length k hk hlt.2
  | case2 l k hge =>
    intro hk
    have hl0 : l.length = 0 := by
      rcases Nat.eq_zero_or_pos l.length with hc | hc
      · exact hc
      · exact absurd ⟨hk, hc⟩ hge
    rw [chunksRec, dif_neg hge, List.length_nil, hl0]
    rw [Nat.div_eq_of_lt (by omega)]

theorem chunksRec_dropLast_length {α : Type} (l : List α) (k : Nat) :
    0 < k → ∀ c ∈ (chunksRec l k).dropLast, c.length = k := by
  induction l, k using chunksRec.induct with
  | case1 l k hlt ih =>
    intro hk c hc
    rw [chunksRec, dif_pos hlt] at hc
    cases hrest : chunksRec (l.drop k) k with
    | nil =>
      rw [hrest] at hc
      simp at hc
    | cons y ys =>
      rw [hrest, List.dropLast_cons₂, List.mem_cons] at hc
      have hlong : k < l.length := by
        by_contra hcon
        have hdl : (l.drop k).length = 0 := by
          rw [List.length_drop]
          omega
        rw [chunksRec, dif_neg (by rintro ⟨_, hh⟩; omega)] at hrest
        cases hrest
      rcases hc with rfl | hc
      · rw [List.length_take]
        omega
      · rw [← hrest] at hc
        exact ih hk c hc
  | case2 l k hge =>
    intro hk c hc
    rw [chunksRec, dif_neg hge] at hc
    simp at hc

theorem chunksRec_getLast_length {α : Type} (l : List α) (k : Nat) :
    0 < k → 0 < l.length →
      (chunksRec l k).getLast?.map List.length
        = some (if l.length % k = 0 then k else l.length % k) := by
  induction l, k using chunksRec.induct with
  | case1 l k hlt ih =>
    intro hk hl
    rw [chunksRec, dif_pos hlt]
    cases hrest : chunksRec (l.drop k) k with
    | nil =>
      have hlk : l.length ≤ k := by
        by_contra hcon
        exact chunksRec_ne_nil (l.drop k) k hk
          (by rw [List.length_drop]; omega) hrest
      have hts : (l.take k).length = l.length := by
        rw [List.length_take]
        omega
      rcases Nat.lt_or_ge l.length k with hlt2 | hge2
      · rw [show (List.getLast? [l.take k]) = some (l.take k) from rfl]
        rw [Option.map_some', hts, if_neg (by rw [Nat.mod_eq_of_lt hlt2]; omega),
          Nat.mod_eq_of_lt hlt2]
      · have hek : l.length = k := by omega
        rw [show (List.getLast? [l.take k]) = some (l.take k) from rfl]
        rw [Option.map_some', hts, hek, if_pos (Nat.mod_self k)]
    | cons y ys =>
      have hdl : 0 < (l.drop k).length := by
        by_contra hcon
        rw [chunksRec, dif_neg (by rintro ⟨_, hh⟩; omega)] at hrest
        cases hrest
      rw [List.getLast?_cons_cons, ← hrest, ih hk hdl, List.length_drop]
      have hklen : k ≤ l.length := by
        rw [List.length_drop] at hdl
        omega
      have hmod : (l.length - k) % k = l.length % k := by
        conv_rhs => rw [show l.length = (l.length - k) + k from by omega]
        rw [Nat.add_mod_right]
      rw [hmod]
  | case2 l k hge =>
    intro hk hl
    exact absurd ⟨hk, hl⟩ hge

/-- The trace of the chunked loader: its submissions are exactly the
range-loop slices of the queue. -/
theorem submittedChunks_fill_chunk (docs : List Item) (k t : Nat) :
    submittedChunks (fill_elk_index_as_bulk_chunk docs k t)
      = (pyRange 0 docs.length k).map (fun i => pySlice docs i (i + k)) := by
  unfold fill_elk_index_as_bulk_chunk submittedChunks
  rw [List.filterMap_append, List.filterMap_map]
  have h2 : List.filterMap BulkEvent.chunkOf [BulkEvent.sleep t] = [] := rfl
  rw [h2, List.append_nil]
  have h3 : ∀ xs : List Nat,
      List.filterMap (BulkEvent.chunkOf ∘ fun i =>
        BulkEvent.submit (pySlice docs i (i + k))) xs
      = xs.map (fun i => pySlice docs i (i + k)) := by
    intro xs
    induction xs with
    | nil => rfl
    | cons x xs ih =>
      rw [List.map_cons, ← ih]
      rfl
  exact h3 _

/-- The submissions of the chunked loader are the chunk decomposition. -/
theorem submittedChunks_eq_chunksRec (docs : List Item) (k t : Nat)
    (hk : 0 < k) :
    submittedChunks (fill_elk_index_as_bulk_chunk docs k t)
      = chunksRec docs k := by
  rw [submittedChunks_fill_chunk docs k t,
    pyRange_map_slice docs 0 docs.length k rfl hk, List.drop_zero]

/-- Submission events are never sleeps. -/
theorem filter_isSleep_map_submit (f : Nat → List Item) (xs : List Nat) :
    (xs.map (fun i => BulkEvent.submit (f i))).filter BulkEvent.isSleep
      = [] := by
  induction xs with
  | nil => rfl
  | cons x xs ih =>
    rw [List.map_cons, List.filter_cons]
    simp only [BulkEvent.isSleep, Bool.false_eq_true, if_false]
    exact ih

/-- The single sleep of the chunk loop trace, at the very end. -/
theorem sleeps_fill_chunk (docs : List Item) (k t : Nat) :
    (fill_elk_index_as_bulk_chunk docs k t).filter BulkEvent.isSleep
      = [BulkEvent.sleep t] := by
  unfold fill_elk_index_as_bulk_chunk
  rw [List.filter_append, filter_isSleep_map_submit]
  rfl

theorem getLast_fill_chunk (docs : List Item) (k t : Nat) :
    (fill_elk_index_as_bulk_chunk docs k t).getLast?
      = some (BulkEvent.sleep t) := by
  unfold fill_elk_index_as_bulk_chunk
  rw [List.getLast?_concat]

end PyDB

namespace PyDB.Conn

/-! Behaviour of the bounded retry wrapper. -/

theorem retryFixed_one (wait : Nat) (action : Nat → Except String ElkClient)
    (i : Nat) : retryFixed wait action 1 i = (action i, 1, []) := rfl

theorem retryFixed_succ2_ok {action : Nat → Except String ElkClient}
    {i : Nat} {c : ElkClient} (wait m : Nat) (ha : action i = .ok c) :
    retryFixed wait action (m + 2) i = (.ok c, 1, []) := by
  rw [retryFixed, ha]

theorem retryFixed_succ2_err {action : Nat → Except String ElkClient}
    {i : Nat} {e : String} (wait m : Nat) (ha : action i = .error e) :
    retryFixed wait action (m + 2) i
      = ((retryFixed wait action (m + 1) (i + 1)).1,
         (retryFixed wait action (m + 1) (i + 1)).2.1 + 1,
         wait :: (retryFixed wait action (m + 1) (i + 1)).2.2) := by
  rw [retryFixed, ha]

theorem retryFixed_shape (wait : Nat)
    (action : Nat → Except String ElkClient) :
    ∀ n i, 1 ≤ n →
      1 ≤ (retryFixed wait action n i).2.1
      ∧ (retryFixed wait action n i).2.1 ≤ n
      ∧ (retryFixed wait action n i).2.2.length
          = (retryFixed wait action n i).2.1 - 1
      ∧ (∀ w ∈ (retryFixed wait action n i).2.2, w = wait) := by
  intro n
  induction n using Nat.strong_induction_on with
  | _ n ih =>
    rcases n with _ | n
    · intro i h
      exact absurd h (by omega)
    · rcases n with _ | m
      · intro i _
        exact ⟨le_refl 1, le_refl 1, rfl,
          fun w hw => absurd hw (List.not_mem_nil w)⟩
      · intro i _
        cases ha : action i with
        | ok c =>
          rw [retryFixed_succ2_ok wait m ha]
          exact ⟨le_refl 1, (by omega : (1 : Nat) ≤ m + 2), rfl,
            fun w hw => absurd hw (List.not_mem_nil w)⟩
        | error e =>
          obtain ⟨h1, h2, h3, h4⟩ := ih (m + 1) (by omega) (i + 1) (by omega)
          rw [retryFixed_succ2_err wait m ha]
          refine ⟨?g1, ?g2, ?g3, ?g4⟩
          · exact (by omega :
              (1 : Nat) ≤ (retryFixed wait action (m + 1) (i + 1)).2.1 + 1)
          · exact (by omega :
              (retryFixed wait action (m + 1) (i + 1)).2.1 + 1 ≤ m + 2)
          · show (wait :: (retryFixed wait action (m + 1) (i + 1)).2.2).length
              = (retryFixed wait action (m + 1) (i + 1)).2.1 + 1 - 1
            rw [List.length_cons, h3]
            omega
          · intro w hw
            have hw2 : w ∈ wait :: (retryFixed wait action (m + 1) (i + 1)).2.2
              := hw
            rcases List.mem_cons.mp hw2 with rfl | hw3
            · rfl
            · exact h4 w hw3

theorem retryFixed_ok_ping (wait : Nat)
    (action : Nat → Except String ElkClient)
    (hok : ∀ i c, action i = .ok c → c.ping = true) :
    ∀ n i c, (retryFixed wait action n i).1 = .ok c → c.ping = true := by
  intro n
  induction n using Nat.strong_induction_on with
  | _ n ih =>
    rcases n with _ | n
    · intro i c h
      exact absurd h (by simp [retryFixed])
    · rcases n with _ | m
      · intro i c h
        exact hok i c h
      · intro i c h
        cases ha : action i with
        | ok c' =>
          rw [retryFixed_succ2_ok wait m ha] at h
          injection h with h2
          subst h2
          exact hok i c' ha
        | error e =>
          rw [retryFixed_succ2_err wait m ha] at h
          exact ih (m + 1) (by omega) (i + 1) c h

theorem retryFixed_all_fail (wait : Nat)
    (action : Nat → Except String ElkClient) (e : String)
    (hfail : ∀ i, action i = .error e) :
    ∀ n i, 1 ≤ n →
      retryFixed wait action n i
        = (.error e, n, List.replicate (n - 1) wait) := by
  intro n
  induction n using Nat.strong_induction_on with
  | _ n ih =>
    rcases n with _ | n
    · intro i h
      exact absurd h (by omega)
    · rcases n with _ | m
      · intro i _
        rw [retryFixed_one, hfail i]
        rfl
      · intro i _
        rw [retryFixed_succ2_err wait m (hfail i),
          ih (m + 1) (by omega) (i + 1) (by omega)]
        show ((Except.error e : Except String ElkClient), m + 1 + 1,
          wait :: List.replicate (m + 1 - 1) wait)
          = (Except.error e, m + 2, List.replicate (m + 2 - 1) wait)
        rw [show m + 1 - 1 = m from rfl, show m + 2 - 1 = m + 1 from rfl,
          List.replicate_succ]

/-! The single-attempt connection bodies validate the handle with ping. -/

theorem connect_once_onprem_ok {url : String} {outcome : ConnectOutcome}
    {c : ElkClient} (h : connect_once_onprem url outcome = .ok c) :
    c.ping = true := by
  cases outcome with
  | raised m => simp [connect_once_onprem] at h
  | connected b =>
    cases b with
    | true =>
      cases h
      rfl
    | false => simp [connect_once_onprem] at h

theorem connect_once_cloud_ok {host : String} {outcome : ConnectOutcome}
    {c : ElkClient} (h : connect_once_cloud host outcome = .ok c) :
    c.ping = true := by
  cases outcome with
  | raised m => simp [connect_once_cloud] at h
  | connected b =>
    cases b with
    | true =>
      cases h
      rfl
    | false => simp [connect_once_cloud] at h

end PyDB.Conn

namespace PyDB.HeapModel

/-- Mutating through one address never changes the content stored at
another address. -/
theorem applyMutations_store_ne (fs : List (Dict → Dict)) :
    ∀ (hp : Heap) (a b : Addr), a ≠ b →
      (applyMutations hp a fs).store b = hp.store b := by
  induction fs with
  | nil =>
    intro hp a b _
    rfl
  | cons f fs ih =>
    intro hp a b hne
    show (applyMutations (mutateDoc hp a f) a fs).store b = hp.store b
    rw [ih (mutateDoc hp a f) a b hne]
    unfold mutateDoc Heap.write
    simp only
    rw [if_neg (fun h => hne h.symm)]

end PyDB.HeapModel

namespace PyDB

/-! The claim theorems. -/

/-- Claim C1, code-bug evidence: on the record whose tags column is the
list of the strings a, b and a null, the queue built by
fill_elk_index_as_bulk holds one envelope in which tags is still the
original list, null included, and there is no tags_str key at all. The
all-items-are-str guard of add_list_values_as_str rejects any list
containing None, so its None filter is unreachable; the claim (and the
spec's end-to-end example) expect tags = the two strings and
tags_str = their comma join. -/
theorem c1_null_list_code_divergence :
    ((fill_elk_index_as_bulk
        [[("tags", PyVal.vList [.vStr "a", .vStr "b", .vNone])]]
        "D1" "logs" (.vStr "ts") "2024-01-05" none 1000 1).1.map
      (fun it => (dictGet it.2 "tags", dictGet it.2 "tags_str")))
    = [(some (PyVal.vList [.vStr "a", .vStr "b", .vNone]), none)] := rfl

/-- Claim C2, counterexample: with two queued items and chunk size one the
trace of fill_elk_index_as_bulk_chunk is submit, submit, sleep: two
submission calls but a single pause at the very end, not one pause after
each submission as the claim states. -/
theorem c2_counterexample :
    fill_elk_index_as_bulk_chunk [("logs", []), ("logs", [])] 1 60
      = [BulkEvent.submit [("logs", [])], BulkEvent.submit [("logs", [])],
         BulkEvent.sleep 60]
    ∧ ((fill_elk_index_as_bulk_chunk [("logs", []), ("logs", [])] 1 60).filter
        BulkEvent.isSleep).length = 1 := by
  have h : pyRange 0 2 1 = [0, 1] := by
    rw [pyRange, dif_pos (by omega), pyRange, dif_pos (by omega),
      pyRange, dif_neg (by omega)]
  constructor
  · have h0 : fill_elk_index_as_bulk_chunk [("logs", []), ("logs", [])] 1 60
        = (pyRange 0 2 1).map (fun i => BulkEvent.submit
            (pySlice [("logs", []), ("logs", [])] i (i + 1)))
          ++ [BulkEvent.sleep 60] := rfl
    rw [h0, h]
    rfl
  · rw [sleeps_fill_chunk]
    rfl

/-- Claim C2, amended: the pause is not per chunk: the trace contains
exactly one sleep event, of the configured duration, it is the last event
of the trace, coming after all of the ceil(N/K) chunk submissions. -/
theorem c2_single_pause_after_all_chunks (docs : List Item) (k t : Nat)
    (hk : 0 < k) :
    (fill_elk_index_as_bulk_chunk docs k t).filter BulkEvent.isSleep
      = [BulkEvent.sleep t]
    ∧ (fill_elk_index_as_bulk_chunk docs k t).getLast?
      = some (BulkEvent.sleep t)
    ∧ (submittedChunks (fill_elk_index_as_bulk_chunk docs k t)).length
      = (docs.length + k - 1) / k := by
  refine ⟨sleeps_fill_chunk docs k t, getLast_fill_chunk docs k t, ?h3⟩
  rw [submittedChunks_eq_chunksRec docs k t hk]
  exact chunksRec_length docs k hk

/-- Witness for the amended claim C2 at two items, chunk size one. -/
theorem c2_single_pause_witness :
    0 < 1
    ∧ ((fill_elk_index_as_bulk_chunk [("logs", []), ("logs", [])] 1 60).filter
        BulkEvent.isSleep = [BulkEvent.sleep 60]
      ∧ (fill_elk_index_as_bulk_chunk
          [("logs", []), ("logs", [])] 1 60).getLast?
        = some (BulkEvent.sleep 60)
      ∧ (submittedChunks (fill_elk_index_as_bulk_chunk
          [("logs", []), ("logs", [])] 1 60)).length
        = (([("logs", []), ("logs", [])] : List Item).length + 1 - 1) / 1) :=
  ⟨by omega,
   c2_single_pause_after_all_chunks [("logs", []), ("logs", [])] 1 60
     (by omega)⟩

/-- Claim C3, code-bug evidence: the two constructors disagree. With
protocol https, host h and port 9200, elastic_search.py computes
https://h:9200 while elastic_serach_connection.py computes https://h, its
port branch condition being inverted; with no port at all the latter even
renders the Python None into the URL. -/
theorem c3_url_constructors_disagree :
    Conn.elasticsearch_url_main Conn.UrlProtocol.https "h" (some 9200)
      = "https://h:9200"
    ∧ Conn.elasticsearch_url_conn "https" "h" (some 9200) = "https://h"
    ∧ Conn.elasticsearch_url_main Conn.UrlProtocol.https "h" (some 9200)
      ≠ Conn.elasticsearch_url_conn "https" "h" (some 9200)
    ∧ Conn.elasticsearch_url_conn "https" "h" none = "https://h:None" := by
  refine ⟨rfl, rfl, ?h3, rfl⟩
  decide

/-- Claim C4, counterexample: first, a supplied but empty username is not
stored, because the source tests Python truthiness rather than presence;
second, a record column named date_str overwrites the derived value; third,
a string-list record column named date also overwrites date_str through the
derived column + "_str" key. -/
theorem c4_counterexample :
    dictHasKey (buildDoc "D1" (.vStr "ts") "2024-01-05" (some "") [])
      "username" = false
    ∧ dictGet (buildDoc "D1" (.vStr "ts") "2024-01-05" none
        [("date_str", .vStr "X")]) "date_str" = some (.vStr "X")
    ∧ dictGet (buildDoc "D1" (.vStr "ts") "2024-01-05" none
        [("date", .vList [.vStr "z"])]) "date_str" = some (.vStr "z") :=
  ⟨rfl, rfl, rfl⟩

/-- Claim C4, amended: every envelope built by the loader has the keys
doc_id, timestamp and date_str; when the record has no column named
date_str and none named date, date_str holds the input date string with
every dash replaced by an underscore; and username is present exactly when
a non-empty username was supplied or the record itself has a username
column. -/
theorem c4_basic_info_keys (doc_id : String) (ts : PyVal) (date : String)
    (u : Option String) (row : Dict) :
    dictHasKey (buildDoc doc_id ts date u row) "doc_id" = true
    ∧ dictHasKey (buildDoc doc_id ts date u row) "timestamp" = true
    ∧ dictHasKey (buildDoc doc_id ts date u row) "date_str" = true
    ∧ ((∀ p ∈ row, p.1 ≠ "date_str" ∧ p.1 ≠ "date") →
        dictGet (buildDoc doc_id ts date u row) "date_str"
          = some (.vStr (replaceDashUnderscore date)))
    ∧ (dictHasKey (buildDoc doc_id ts date u row) "username" = true ↔
        (pyTruthyStr u = true ∨ ∃ p ∈ row, p.1 = "username")) := by
  unfold buildDoc
  refine ⟨?h1, ?h2, ?h3, ?h4, ?h5⟩
  · exact hasKey_processRow_of_hasKey row (hasKey_basic_doc_id doc_id ts date u)
  · exact hasKey_processRow_of_hasKey row
      (hasKey_basic_timestamp doc_id ts date u)
  · exact hasKey_processRow_of_hasKey row
      (hasKey_basic_date_str doc_id ts date u)
  · intro hrow
    have hcond : ∀ p ∈ row, p.1 ≠ "date_str" ∧ p.1 ++ "_str" ≠ "date_str" := by
      intro p hp
      exact ⟨(hrow p hp).1,
        fun hc => (hrow p hp).2 (append_str_eq_date_str hc)⟩
    rw [dictGet_processRow_untouched hcond]
    exact dictGet_basic_date_str doc_id ts date u
  · constructor
    · intro h
      rcases hasKey_processRow h with hb | ⟨p, hp, hcase⟩
      · left
        rw [hasKey_basic_username doc_id ts date u] at hb
        exact hb
      · rcases hcase with hc | hc
        · exact Or.inr ⟨p, hp, hc.symm⟩
        · exact absurd hc.symm (append_str_ne_username p.1)
    · rintro (h | ⟨p, hp, hu⟩)
      · refine hasKey_processRow_of_hasKey row ?hb
        rw [hasKey_basic_username doc_id ts date u]
        exact h
      · have hm := @hasKey_processRow_of_mem
          (add_basic_info [] doc_id ts date u) row _ hp
        rw [hu] at hm
        exact hm

/-- Witness for the amended claim C4 on a benign record and username. -/
theorem c4_basic_info_keys_witness :
    dictHasKey (buildDoc "D1" (.vStr "ts") "2024-01-05" (some "bob")
      [("x", .vStr "1")]) "doc_id" = true
    ∧ dictGet (buildDoc "D1" (.vStr "ts") "2024-01-05" (some "bob")
        [("x", .vStr "1")]) "date_str"
      = some (.vStr (replaceDashUnderscore "2024-01-05"))
    ∧ dictHasKey (buildDoc "D1" (.vStr "ts") "2024-01-05" (some "bob")
        [("x", .vStr "1")]) "username" = true := by
  obtain ⟨h1, _, _, h4, h5⟩ := c4_basic_info_keys "D1" (.vStr "ts")
    "2024-01-05" (some "bob") [("x", .vStr "1")]
  exact ⟨h1, h4 (by decide), h5.mpr (Or.inl rfl)⟩

/-- Claim C5: chunk submission never propagates an error in either mode:
for every queue and every bulk-helper response the translated
set_list_of_docs returns Except.ok, and in synchronous mode a success count
short of the queue length is reported through an error-level log record,
present among the returned logs. -/
theorem c5_submission_never_raises (docs : List Item) (rt : Nat)
    (quick : Bool) (sresp : List StreamItem) (bresp : Nat × List String) :
    ∃ logs, set_list_of_docs docs rt quick sresp bresp = Except.ok logs
      ∧ (quick = false → bresp.1 ≠ docs.length →
          ∃ m, (LogLevel.error, m) ∈ logs) := by
  cases quick with
  | true =>
    refine ⟨_, rfl, ?_⟩
    intro hq
    simp at hq
  | false =>
    refine ⟨_, rfl, ?_⟩
    intro _ hne
    refine ⟨"Not all documents were reported successfully.", ?hm⟩
    rw [if_neg hne]
    simp

/-- Witness for claim C5: a synchronous-mode call with a shortfall. -/
theorem c5_submission_never_raises_witness :
    ∃ logs, set_list_of_docs [("logs", [])] 600 false [] (0, ["x"])
        = Except.ok logs
      ∧ (false = false → (0, ["x"]).1 ≠ ([("logs", [])] : List Item).length →
          ∃ m, (LogLevel.error, m) ∈ logs) :=
  c5_submission_never_raises [("logs", [])] 600 false [] (0, ["x"])

/-- Claim C6: for chunk size K greater than zero the chunk loop submits
exactly ceil(N/K) chunks; every chunk but the last has length K; a nonzero
multiple of K ends with a chunk of length K, otherwise the last chunk has
length N mod K; an empty queue submits nothing. -/
theorem c6_chunking (docs : List Item) (k t : Nat) (hk : 0 < k) :
    (submittedChunks (fill_elk_index_as_bulk_chunk docs k t)).length
      = (docs.length + k - 1) / k
    ∧ (∀ c ∈ (submittedChunks
        (fill_elk_index_as_bulk_chunk docs k t)).dropLast, c.length = k)
    ∧ (0 < docs.length → docs.length % k = 0 →
        (submittedChunks (fill_elk_index_as_bulk_chunk docs k t)).getLast?.map
          List.length = some k)
    ∧ (docs.length % k ≠ 0 →
        (submittedChunks (fill_elk_index_as_bulk_chunk docs k t)).getLast?.map
          List.length = some (docs.length % k))
    ∧ (docs = [] →
        submittedChunks (fill_elk_index_as_bulk_chunk docs k t) = []) := by
  rw [submittedChunks_eq_chunksRec docs k t hk]
  refine ⟨chunksRec_length docs k hk, chunksRec_dropLast_length docs k hk,
    ?h3, ?h4, ?h5⟩
  · intro hpos hmod
    rw [chunksRec_getLast_length docs k hk hpos, if_pos hmod]
  · intro hmod
    have hpos : 0 < docs.length := by
      rcases Nat.eq_zero_or_pos docs.length with h0 | h0
      · rw [h0] at hmod
        exact absurd (Nat.zero_mod k) hmod
      · exact h0
    rw [chunksRec_getLast_length docs k hk hpos, if_neg hmod]
  · rintro rfl
    rw [chunksRec, dif_neg (by simp)]

/-- Witness for claim C6: three items in chunks of two. -/
theorem c6_chunking_witness :
    0 < 2
    ∧ ((submittedChunks (fill_elk_index_as_bulk_chunk
          [("a", []), ("b", []), ("c", [])] 2 1)).length
        = (([("a", []), ("b", []), ("c", [])] : List Item).length + 2 - 1) / 2
      ∧ (∀ c ∈ (submittedChunks (fill_elk_index_as_bulk_chunk
          [("a", []), ("b", []), ("c", [])] 2 1)).dropLast, c.length = 2)
      ∧ (0 < ([("a", []), ("b", []), ("c", [])] : List Item).length →
          ([("a", []), ("b", []), ("c", [])] : List Item).length % 2 = 0 →
          (submittedChunks (fill_elk_index_as_bulk_chunk
            [("a", []), ("b", []), ("c", [])] 2 1)).getLast?.map List.length
            = some 2)
      ∧ (([("a", []), ("b", []), ("c", [])] : List Item).length % 2 ≠ 0 →
          (submittedChunks (fill_elk_index_as_bulk_chunk
            [("a", []), ("b", []), ("c", [])] 2 1)).getLast?.map List.length
            = some (([("a", []), ("b", []), ("c", [])] : List Item).length % 2))
      ∧ (([("a", []), ("b", []), ("c", [])] : List Item) = [] →
          submittedChunks (fill_elk_index_as_bulk_chunk
            [("a", []), ("b", []), ("c", [])] 2 1) = [])) :=
  ⟨by omega, c6_chunking [("a", []), ("b", []), ("c", [])] 2 1 (by omega)⟩

/-- Claim C7: delete-if-exists returns true, removes the index and issues
exactly one deletion call when the existence check reports the index
present; it returns false, leaves the state alone and issues no deletion
call when the check reports it absent. -/
theorem c7_delete_if_exists (indices : List String) (index : String) :
    (check_if_index_exists indices index = true →
      check_if_index_exists_and_delete_if_exists indices index
        = (true, indices.filter (fun i => i != index), [index]))
    ∧ (check_if_index_exists indices index = false →
      check_if_index_exists_and_delete_if_exists indices index
        = (false, indices, [])) := by
  constructor
  · intro h
    unfold check_if_index_exists_and_delete_if_exists delete_index
    rw [if_pos h]
  · intro h
    unfold check_if_index_exists_and_delete_if_exists
    rw [if_neg (by simp [h])]

/-- Witness for claim C7 on both sides of the existence check. -/
theorem c7_delete_if_exists_witness :
    (check_if_index_exists ["logs", "metrics"] "logs" = true
      ∧ check_if_index_exists_and_delete_if_exists ["logs", "metrics"] "logs"
        = (true, ["logs", "metrics"].filter (fun i => i != "logs"), ["logs"]))
    ∧ (check_if_index_exists ["metrics"] "logs" = false
      ∧ check_if_index_exists_and_delete_if_exists ["metrics"] "logs"
        = (false, ["metrics"], [])) :=
  ⟨⟨rfl, (c7_delete_if_exists ["logs", "metrics"] "logs").1 rfl⟩,
   ⟨rfl, (c7_delete_if_exists ["metrics"] "logs").2 rfl⟩⟩

/-- Claim C8: appending a Bulk Request Item stores a deep copy living at a
fresh address, so that any sequence of in-place mutations of the working
document performed afterwards leaves the appended item's source content
exactly as it was at append time. -/
theorem c8_deepcopy_isolation (h : HeapModel.Heap)
    (docs : List HeapModel.BulkItem) (idx : String) (a : HeapModel.Addr)
    (fs : List (Dict → Dict)) (ha : a < h.next) :
    ∃ item : HeapModel.BulkItem,
      (HeapModel.fill_list_of_docs h docs idx a).2 = docs ++ [item]
      ∧ (HeapModel.applyMutations (HeapModel.fill_list_of_docs h docs idx a).1
          a fs).store item.source = h.store a := by
  refine ⟨⟨idx, h.next⟩, rfl, ?hs⟩
  rw [HeapModel.applyMutations_store_ne fs _ a h.next (Nat.ne_of_lt ha)]
  show (if h.next = h.next then h.store a else h.store h.next) = h.store a
  rw [if_pos rfl]

/-- Witness for claim C8: one mutation after appending from a one-object
heap. -/
theorem c8_deepcopy_isolation_witness :
    (0 : HeapModel.Addr) < (⟨1, fun _ => ([] : Dict)⟩ : HeapModel.Heap).next
    ∧ ∃ item : HeapModel.BulkItem,
      (HeapModel.fill_list_of_docs ⟨1, fun _ => []⟩ [] "logs" 0).2
        = [] ++ [item]
      ∧ (HeapModel.applyMutations
          (HeapModel.fill_list_of_docs ⟨1, fun _ => []⟩ [] "logs" 0).1 0
          [fun d => dictSet d "doc_id" (.vStr "E")]).store item.source
        = (⟨1, fun _ => ([] : Dict)⟩ : HeapModel.Heap).store 0 :=
  ⟨Nat.zero_lt_one,
   c8_deepcopy_isolation ⟨1, fun _ => []⟩ [] "logs" 0
     [fun d => dictSet d "doc_id" (.vStr "E")] Nat.zero_lt_one⟩

/-- Claim C9: both factories make at most 3 attempts with a fixed wait of
180000 milliseconds between consecutive attempts; a successful result is a
client whose liveness check passed; and when every attempt connects but the
ping fails, the factory ends in the generic error naming the target
endpoint, after exactly 3 attempts and 2 waits. -/
theorem c9_retry_and_ping (url host : String)
    (envP envC : Nat → Conn.ConnectOutcome) :
    ((Conn.connect_to_elasticsearch_onprem url envP).2.1 ≤ 3
    ∧ (Conn.connect_to_elasticsearch_onprem url envP).2.2.length
        = (Conn.connect_to_elasticsearch_onprem url envP).2.1 - 1
    ∧ (∀ w ∈ (Conn.connect_to_elasticsearch_onprem url envP).2.2, w = 180000)
    ∧ (∀ c, (Conn.connect_to_elasticsearch_onprem url envP).1
        = .ok c → c.ping = true)
    ∧ ((∀ i, envP i = .connected false) →
        Conn.connect_to_elasticsearch_onprem url envP
          = (.error ("Failed to connect to Elasticsearch on-prem on " ++ url),
             3, [180000, 180000])))
    ∧ ((Conn.connect_to_elasticsearch_cloud host envC).2.1 ≤ 3
    ∧ (Conn.connect_to_elasticsearch_cloud host envC).2.2.length
        = (Conn.connect_to_elasticsearch_cloud host envC).2.1 - 1
    ∧ (∀ w ∈ (Conn.connect_to_elasticsearch_cloud host envC).2.2, w = 180000)
    ∧ (∀ c, (Conn.connect_to_elasticsearch_cloud host envC).1
        = .ok c → c.ping = true)
    ∧ ((∀ i, envC i = .connected false) →
        Conn.connect_to_elasticsearch_cloud host envC
          = (.error ("Failed to connect to Elasticsearch cloud on " ++ host),
             3, [180000, 180000]))) := by
  constructor
  · obtain ⟨s1, s2, s3, s4⟩ := Conn.retryFixed_shape 180000
      (fun i => Conn.connect_once_onprem url (envP i)) 3 0 (by omega)
    refine ⟨s2, s3, s4, ?_, ?_⟩
    · intro c hc
      exact Conn.retryFixed_ok_ping 180000 _
        (fun i c' hcc => Conn.connect_once_onprem_ok hcc) 3 0 c hc
    · intro hall
      have hfail : ∀ i,
          (fun i => Conn.connect_once_onprem url (envP i)) i
            = .error ("Failed to connect to Elasticsearch on-prem on "
                ++ url) := by
        intro i
        show Conn.connect_once_onprem url (envP i) = _
        rw [hall i]
        rfl
      exact Conn.retryFixed_all_fail 180000 _ _ hfail 3 0 (by omega)
  · obtain ⟨s1, s2, s3, s4⟩ := Conn.retryFixed_shape 180000
      (fun i => Conn.connect_once_cloud host (envC i)) 3 0 (by omega)
    refine ⟨s2, s3, s4, ?_, ?_⟩
    · intro c hc
      exact Conn.retryFixed_ok_ping 180000 _
        (fun i c' hcc => Conn.connect_once_cloud_ok hcc) 3 0 c hc
    · intro hall
      have hfail : ∀ i,
          (fun i => Conn.connect_once_cloud host (envC i)) i
            = .error ("Failed to connect to Elasticsearch cloud on "
                ++ host) := by
        intro i
        show Conn.connect_once_cloud host (envC i) = _
        rw [hall i]
        rfl
      exact Conn.retryFixed_all_fail 180000 _ _ hfail 3 0 (by omega)

/-- Witness for claim C9: environments in which every ping fails. -/
theorem c9_retry_and_ping_witness :
    Conn.connect_to_elasticsearch_onprem "https://h:9200"
        (fun _ => Conn.ConnectOutcome.connected false)
      = (.error ("Failed to connect to Elasticsearch on-prem on "
          ++ "https://h:9200"), 3, [180000, 180000])
    ∧ Conn.connect_to_elasticsearch_cloud "cloud-id"
        (fun _ => Conn.ConnectOutcome.connected false)
      = (.error ("Failed to connect to Elasticsearch cloud on "
          ++ "cloud-id"), 3, [180000, 180000]) :=
  ⟨(c9_retry_and_ping "https://h:9200" "cloud-id"
      (fun _ => .connected false) (fun _ => .connected false)).1.2.2.2.2
    (fun _ => rfl),
   (c9_retry_and_ping "https://h:9200" "cloud-id"
      (fun _ => .connected false) (fun _ => .connected false)).2.2.2.2.2
    (fun _ => rfl)⟩

/-- Claim C10: a record column named doc_id, timestamp, date_str or
username ends up as that key's value in the generated envelope, displacing
the loader-supplied basic info, because the column loop runs after
add_basic_info. The record's keys are assumed distinct, as Python dict keys
are, and no column may re-derive the key through the column + "_str" rule
(only a string-list column named date can do that, for date_str). -/
theorem c10_record_columns_overwrite (doc_id : String) (ts : PyVal)
    (date : String) (u : Option String) (row : Dict) (k : String) (v : PyVal)
    (_hk : k ∈ ["doc_id", "timestamp", "date_str", "username"])
    (hmem : (k, v) ∈ row)
    (hnd : (row.map Prod.fst).Nodup)
    (hstr : ∀ p ∈ row, p.1 ++ "_str" ≠ k) :
    dictGet (buildDoc doc_id ts date u row) k = some v := by
  rcases List.append_of_mem hmem with ⟨s, t2, rfl⟩
  unfold buildDoc
  apply dictGet_processRow_of_split
  intro q hq
  constructor
  · have hmap : (s.map Prod.fst ++ k :: t2.map Prod.fst).Nodup := by
      simpa using hnd
    have hk2 : k ∉ t2.map Prod.fst :=
      (List.nodup_cons.mp (List.Nodup.of_append_right hmap)).1
    intro hqk
    exact hk2 (hqk ▸ List.mem_map_of_mem Prod.fst hq)
  · exact hstr q
      (List.mem_append_right _ (List.mem_cons_of_mem _ hq))

/-- Witness for claim C10: a record supplying its own doc_id. -/
theorem c10_record_columns_overwrite_witness :
    ("doc_id" ∈ ["doc_id", "timestamp", "date_str", "username"])
    ∧ (("doc_id", PyVal.vStr "R") ∈ [("doc_id", PyVal.vStr "R")])
    ∧ (([("doc_id", PyVal.vStr "R")].map Prod.fst).Nodup)
    ∧ (∀ p ∈ [("doc_id", PyVal.vStr "R")], p.1 ++ "_str" ≠ "doc_id")
    ∧ dictGet (buildDoc "D1" (.vStr "ts") "2024-01-05" none
        [("doc_id", PyVal.vStr "R")]) "doc_id" = some (.vStr "R") :=
  ⟨by decide, List.mem_singleton.mpr rfl, by decide, by decide,
   c10_record_columns_overwrite "D1" (.vStr "ts") "2024-01-05" none
     [("doc_id", PyVal.vStr "R")] "doc_id" (.vStr "R") (by decide)
     (List.mem_singleton.mpr rfl) (by decide) (by decide)⟩

end PyDB
